import Mathlib

/-!
Verification of the SEO content generator pipeline (src/app.py).

Strings are modelled as `List Char` (`Str`).  The pure helpers
(`clean_text`, the `|||` splitter of `parse_responses`, the batching
comprehension of `generate_content`) are translated directly from the
Python source; the remote OpenAI call made by `openai_gpt_request` is the
one external effect, and it is passed to `generate_content` as a
parameter `complete : Str → Str → Option Str` (api key, prompt ↦ either
the completion text or `none`, which is what `openai_gpt_request` returns
after its try/except converts every API exception into `None`).
`generate_content` additionally returns the list of debug `print`
messages it emits, and `parse_responses` returns the list of
`st.warning` messages alongside the parsed rows, so that claims about
those channels can be stated.
-/

/-- Strings of the Python program, as lists of characters. -/
abbrev Str := List Char

/-- The Unicode white-space predicate used by Python's `str.strip()` and by
the regex class `\s` (both are `Py_UNICODE_ISSPACE`): U+0009–U+000D,
U+001C–U+001F, space, U+0085, U+00A0, U+1680, U+2000–U+200A, U+2028,
U+2029, U+202F, U+205F, U+3000. -/
def isPySpace (c : Char) : Bool :=
  let n := c.toNat
  decide ((9 ≤ n ∧ n ≤ 13) ∨ (28 ≤ n ∧ n ≤ 31) ∨ n = 32 ∨ n = 133 ∨ n = 160 ∨
    n = 5760 ∨ (8192 ≤ n ∧ n ≤ 8202) ∨ n = 8232 ∨ n = 8233 ∨ n = 8239 ∨
    n = 8287 ∨ n = 12288)

/-- First line of `clean_text`: `re.sub(r'["“””-]', '', text)`.  The
character class holds the straight double quote U+0022, the curly double
quotes U+201C and U+201D (the latter written twice in the source) and the
hyphen-minus U+002D; substituting the empty string for every occurrence
deletes exactly those characters. -/
def removeQuotes (text : Str) : Str :=
  text.filter (fun c => !(c == '"' || c == '“' || c == '”' || c == '-'))

/-- The character class `[^\]]` of the citation pattern: any character
other than `]`. -/
def notRB (d : Char) : Bool := !(d == ']')

/-- Does a match of the citation pattern `\[[^\]]+\]` start at the head of
`s`?  A match needs an opening `[`, then a maximal nonempty run of
non-`]` characters, then a `]`. -/
def citeAt (s : Str) : Bool :=
  match s with
  | [] => false
  | c :: rest =>
    c == '[' && !(rest.takeWhile notRB).isEmpty &&
      ((rest.dropWhile notRB).take 1 == [']'])

/-- Second line of `clean_text`: `re.sub(r'\[[^\]]+\]', '', text)`,
implemented as the left-to-right, non-overlapping scan `re.sub` performs:
at each position, if the citation pattern matches (`citeAt`), the whole
match (the bracketed run and both brackets) is deleted and scanning
resumes after it, otherwise the character is kept.  The `fuel` argument
only forces termination; every step consumes at least one character, so
`fuel = length of the input` (used by `stripCitations`) is always
enough and the `fuel = 0` fallback is never reached on a nonempty list. -/
def stripCitationsF : Nat → Str → Str
  | 0, l => l
  | _ + 1, [] => []
  | fuel + 1, c :: rest =>
    if citeAt (c :: rest) then
      stripCitationsF fuel ((rest.dropWhile notRB).drop 1)
    else
      c :: stripCitationsF fuel rest

/-- `re.sub(r'\[[^\]]+\]', '', text)` on a whole string. -/
def stripCitations (text : Str) : Str :=
  stripCitationsF text.length text

/-- Does `s` contain any substring matching `\[[^\]]+\]`? -/
def hasCitation : Str → Bool
  | [] => false
  | c :: rest => citeAt (c :: rest) || hasCitation rest

/-- Python's `str.strip()`: drop `isPySpace` characters from both ends. -/
def pyStrip (l : Str) : Str :=
  ((l.dropWhile isPySpace).reverse.dropWhile isPySpace).reverse

/-- Boolean check that a string has no leading and no trailing white space. -/
def strippedB (l : Str) : Bool :=
  l.head?.all (fun c => !isPySpace c) && l.getLast?.all (fun c => !isPySpace c)

/-- `clean_text` from app.py: remove the quote/hyphen class, remove the
bracketed citations, then strip surrounding white space. -/
def clean_text (text : Str) : Str :=
  pyStrip (stripCitations (removeQuotes text))

/-- The f-string prompt template built inside `generate_content`
(app.py lines 39–66), with `company_name` and `keyword` interpolated at
the same places as the source. -/
def build_prompt (company_name keyword : Str) : Str :=
  "\nContext: You are generating content for a new internal Intrafeed at ".data ++
    company_name ++
  ". Employees won\x27t contribute if they don\x27t see content, so you must \x27seed\x27 the platform.\n\nABSOLUTE OUTPUT FORMAT REQUIREMENTS:\n- Output MUST be plain text.\n- Output MUST consist of EXACTLY ONE line.\n- The line MUST contain the following fields, separated by \x27|||\x27: Title, Post Body, Comment 1, Comment 2, Comment 3, Comment 4, Comment 5\n- There MUST be NO other text before, after, or between the data fields. NO headers. NO explanations. NO newlines within a field.\n- Example: Title|||Post Body|||Comment 1|||Comment 2|||Comment 3|||Comment 4|||Comment 5\n\nDirectives:\n- Create one post based on the keyword: **".data ++
    keyword ++
  "**\n- Post should not look AI generated and should mimic a reddit style post\n- Include the keyword in the Title, Post Body, and all Comments.\n- Comments should be atleast 150 words aim for that \n- The post should be in a Reddit style.\n- Some posts should have typos or informal language (like Hinglish if ".data ++
    company_name ++
  " is Indian).\n- The post should NOT look AI-generated.\n- Add specific details like location (cities where ".data ++
    company_name ++
  " operates), ".data ++
    company_name ++
  "\x27s tools, branch names, etc.\n- Vary the character length of the Title, Post Body, and each Comment.\n- For comments, aim for a mix of lengths: some short, some medium, some longer (around 20-250 characters).\n- Don\x27t overuse emojis.\n- Base content on reviews from AmbitionBox, Glassdoor, Fishbowl, but rephrase to avoid direct copying.\n- Do not hallucinate. Provide only factual information, or phrase as a question.\n- Be specific enough for employees to recognize it as internal, but ensure no false information.\n- Posts should be anonymous. No usernames. No hashtags.\n- Comments must vary in tone, style, and content.\n".data

/-- The debug message `print`ed by `generate_content` for a successful
nonempty completion:
`f"----- Raw Response for keyword '{keyword}': -----\n{response_text}"`. -/
def dbgMsg (keyword response_text : Str) : Str :=
  "----- Raw Response for keyword \x27".data ++ keyword ++
    "\x27: -----\n".data ++ response_text

/-- The batching comprehension of app.py line 35,
`[keywords[i:i + B] for i in range(0, len(keywords), B)]`, with the batch
size left as a parameter (the source fixes it to 1, with the comment
`(or adjust)`; spec section 4.4 treats it as the configuration input
`batchSize`).  `range(0, L, B)` enumerates the multiples `j * B` for
`j < ceil(L / B)`, and the slice `keywords[i:i+B]` is `drop i` then
`take B`.  (Python raises on step 0; a batch size of 0 is outside the
contract and yields `[]` here.) -/
def keyword_batches (batchSize : Nat) (keywords : List Str) : List (List Str) :=
  (List.range ((keywords.length + batchSize - 1) / batchSize)).map
    (fun j => (keywords.drop (j * batchSize)).take batchSize)

/-- `generate_content` from app.py: iterate over the batches (batch size
1) and over each keyword of a batch, build the prompt, call the
completion client, and when the response is truthy (not `None` and not
the empty string) print the debug message (when `debug_mode`) and append
the raw response text to `all_posts`.  Returns
`(all_posts, debug print log)`. -/
def generate_content (complete : Str → Str → Option Str) (api_key company_name : Str)
    (keywords : List Str) (debug_mode : Bool) : List Str × List Str :=
  (keyword_batches 1 keywords).foldl
    (fun acc batch =>
      batch.foldl
        (fun acc keyword =>
          match complete api_key (build_prompt company_name keyword) with
          | some response_text =>
            if response_text = [] then acc
            else
              (acc.1 ++ [response_text],
               acc.2 ++ if debug_mode then [dbgMsg keyword response_text] else [])
          | none => acc)
        acc)
    ([], [])

/-- What one keyword contributes to `all_posts`: the raw completion text
when the call succeeds with a nonempty string, nothing otherwise. -/
def postStep (complete : Str → Str → Option Str) (api_key company_name : Str)
    (keyword : Str) : Option Str :=
  match complete api_key (build_prompt company_name keyword) with
  | some response_text => if response_text = [] then none else some response_text
  | none => none

/-- What one keyword contributes to the debug print log. -/
def logStep (complete : Str → Str → Option Str) (api_key company_name : Str)
    (debug_mode : Bool) (keyword : Str) : Option Str :=
  match complete api_key (build_prompt company_name keyword) with
  | some response_text =>
    if response_text = [] then none
    else if debug_mode then some (dbgMsg keyword response_text) else none
  | none => none

/-- One step of the splitter `re.split(r'\s*\|\|\|\s*', line)`: does a
match of the delimiter pattern start at the head of `s`?  A match is a
(possibly empty) run of `\s` characters followed by the literal `|||`;
since `|` is not white space, a match starts here exactly when the
maximal white-space run from this position is followed by `|||`. -/
def delimAt (s : Str) : Bool :=
  (s.dropWhile isPySpace).take 3 == ['|', '|', '|']

/-- `re.split(r'\s*\|\|\|\s*', line)` as the scan `re.split` performs:
find the leftmost match of the pattern, cut the text before it as one
fragment, consume the match (its leading white space, the `|||`, and —
greedily — all trailing white space), and continue; the remainder after
the last match is the final fragment.  `fuel` only forces termination:
every recursive step consumes at least one character, so
`fuel = length of the input` (used by `py_re_split`) is always enough
and the `fuel = 0` fallback is never reached on a nonempty list. -/
def pyReSplitF : Nat → Str → Str → List Str
  | 0, acc, s => [acc.reverse ++ s]
  | _ + 1, acc, [] => [acc.reverse]
  | fuel + 1, acc, c :: rest =>
    if delimAt (c :: rest) then
      acc.reverse ::
        pyReSplitF fuel []
          ((((c :: rest).dropWhile isPySpace).drop 3).dropWhile isPySpace)
    else
      pyReSplitF fuel (c :: acc) rest

/-- `re.split(r'\s*\|\|\|\s*', line)` on a whole line. -/
def py_re_split (line : Str) : List Str :=
  pyReSplitF line.length [] line

/-- The non-empty fragments of a line:
`parts = re.split(...); parts = [p for p in parts if p]`. -/
def lineParts (line : Str) : List Str :=
  (py_re_split line).filter (fun p => !p.isEmpty)

/-- The row dictionary built by `parse_responses` for a line with at
least two usable fragments (app.py lines 91–99): the first fragment is
the Title, the second the Post Body, fragments 2..6 the Comments 1..5
when present and `""` otherwise, every present field passed through
`clean_text`.  (In the source each value is wrapped in a singleton list
to feed `pd.DataFrame`; the row it denotes is this key/value list.) -/
def mkRecord (parts : List Str) : List (Str × Str) :=
  [("Title".data, clean_text (parts.getD 0 [])),
   ("Post Body".data, clean_text (parts.getD 1 [])),
   ("Comment 1".data, if 2 < parts.length then clean_text (parts.getD 2 []) else []),
   ("Comment 2".data, if 3 < parts.length then clean_text (parts.getD 3 []) else []),
   ("Comment 3".data, if 4 < parts.length then clean_text (parts.getD 4 []) else []),
   ("Comment 4".data, if 5 < parts.length then clean_text (parts.getD 5 []) else []),
   ("Comment 5".data, if 6 < parts.length then clean_text (parts.getD 6 []) else [])]

/-- The fixed key sequence of every row. -/
def recordKeys : List Str :=
  ["Title".data, "Post Body".data, "Comment 1".data, "Comment 2".data,
   "Comment 3".data, "Comment 4".data, "Comment 5".data]

/-- What one response line contributes to the result table: a full row
when it has at least 2 non-empty fragments, nothing otherwise. -/
def parse_line (line : Str) : Option (List (Str × Str)) :=
  if 2 ≤ (lineParts line).length then some (mkRecord (lineParts line)) else none

/-- The `st.warning` message of app.py line 103 for a discarded line:
`f"Too few fields ({len(parts)}) in line. Skipping.\nLine Snippet: {line[:100]}..."`. -/
def warnMsg (numParts : Nat) (line : Str) : Str :=
  "Too few fields (".data ++ Nat.toDigits 10 numParts ++
    ") in line. Skipping.\nLine Snippet: ".data ++ line.take 100 ++ "...".data

/-- What one response line contributes to the warning channel. -/
def warnStep (line : Str) : Option Str :=
  if 2 ≤ (lineParts line).length then none
  else some (warnMsg (lineParts line).length line)

/-- `parse_responses` from app.py: for each line, split on the delimiter,
drop empty fragments, and either append a full row to the table (at
least 2 fragments) or emit the warning.  Returns
`(result table, warnings)`; `pd.concat(..., ignore_index=True)` keeps
the rows in input order and an empty `all_dfs` gives the empty table,
so the table is the ordered list of rows. -/
def parse_responses (responses : List Str) : List (List (Str × Str)) × List Str :=
  responses.foldl
    (fun acc line =>
      if 2 ≤ (lineParts line).length then (acc.1 ++ [mkRecord (lineParts line)], acc.2)
      else (acc.1, acc.2 ++ [warnMsg (lineParts line).length line]))
    ([], [])

/-! ### Lemmas about the citation scrubber -/

/-- The scrubber never runs out of fuel on the empty string. -/
theorem stripCitationsF_nil (f : Nat) : stripCitationsF f [] = [] := by
  cases f <;> rfl

/-- The scrubber only deletes characters. -/
theorem stripCitationsF_sublist (f : Nat) :
    ∀ l : Str, List.Sublist (stripCitationsF f l) l := by
  induction f with
  | zero => intro l; exact List.Sublist.refl l
  | succ f ih =>
    intro l
    cases l with
    | nil => exact List.Sublist.refl []
    | cons c rest =>
      show List.Sublist (if citeAt (c :: rest) = true then _ else _) _
      by_cases h : citeAt (c :: rest) = true
      · rw [if_pos h]
        exact (((ih _).trans (List.drop_sublist 1 _)).trans
          (List.dropWhile_suffix notRB).sublist).trans (List.sublist_cons_self c rest)
      · rw [if_neg h]
        exact (ih rest).cons₂ c

theorem stripCitations_sublist (l : Str) : List.Sublist (stripCitations l) l :=
  stripCitationsF_sublist l.length l

/-- The first character surviving a `dropWhile` fails the predicate. -/
theorem dropWhile_head?_not {α : Type} (p : α → Bool) (l : List α) (a : α)
    (h : (l.dropWhile p).head? = some a) : p a = false := by
  induction l with
  | nil => simp [List.dropWhile] at h
  | cons c rest ih =>
    rw [List.dropWhile_cons] at h
    by_cases hc : p c
    · simp [hc] at h; exact ih h
    · simp [hc] at h; rw [← h]; simpa using hc

/-- A string on which a citation ends in `]`: whenever the run before the
first `]` is dropped and something remains, that something starts with `]`. -/
theorem dropWhile_notRB_take_one (l : Str) (h : l.dropWhile notRB ≠ []) :
    (l.dropWhile notRB).take 1 = [']'] := by
  cases hd : l.dropWhile notRB with
  | nil => exact absurd hd h
  | cons a t =>
    have ha : notRB a = false :=
      dropWhile_head?_not notRB l a (by rw [hd]; rfl)
    have : a = ']' := by simpa [notRB] using ha
    simp [this]

/-- If no citation match starts at `c :: rest`, one of three reasons holds. -/
theorem citeAt_eq_false_cases (c : Char) (rest : Str)
    (h : citeAt (c :: rest) = false) :
    c ≠ '[' ∨ rest.takeWhile notRB = [] ∨ rest.dropWhile notRB = [] := by
  by_contra hcon
  push_neg at hcon
  obtain ⟨h1, h2, h3⟩ := hcon
  have : citeAt (c :: rest) = true := by
    simp only [citeAt, Bool.and_eq_true, beq_iff_eq]
    refine ⟨⟨h1, by simpa using h2⟩, by rw [dropWhile_notRB_take_one rest h3]⟩
  rw [this] at h
  exact Bool.true_eq_false.mp h

/-- A string with no citation match anywhere passes through the scrubber
unchanged. -/
theorem stripCitationsF_of_no_citation (f : Nat) :
    ∀ l : Str, hasCitation l = false → stripCitationsF f l = l := by
  induction f with
  | zero => intro l _; rfl
  | succ f ih =>
    intro l hl
    cases l with
    | nil => rfl
    | cons c rest =>
      rw [hasCitation, Bool.or_eq_false_iff] at hl
      show (if citeAt (c :: rest) = true then _ else _) = _
      rw [if_neg (by simp [hl.1]), ih rest hl.2]

/-- The scrubber starting at a `]` keeps that `]` in front. -/
theorem stripCitationsF_rb_cons (f : Nat) (rs : Str) :
    ∃ t, stripCitationsF f (']' :: rs) = ']' :: t := by
  cases f with
  | zero => exact ⟨rs, rfl⟩
  | succ f =>
    have hc : citeAt (']' :: rs) = false := by
      have : (']' == '[') = false := by decide
      simp [citeAt, this]
    exact ⟨stripCitationsF f rs, by
      show (if citeAt (']' :: rs) = true then _ else _) = _
      rw [if_neg (by simp [hc])]⟩

/-- After the scrubber runs (with enough fuel), no citation match is left. -/
theorem hasCitation_stripCitationsF (f : Nat) :
    ∀ l : Str, l.length ≤ f → hasCitation (stripCitationsF f l) = false := by
  induction f with
  | zero =>
    intro l hl
    have : l = [] := List.length_eq_zero.mp (Nat.le_zero.mp hl)
    subst this
    rfl
  | succ f ih =>
    intro l hl
    cases l with
    | nil => rfl
    | cons c rest =>
      have hr : rest.length ≤ f := by simpa using hl
      show hasCitation (if citeAt (c :: rest) = true then _ else _) = false
      by_cases h : citeAt (c :: rest) = true
      · rw [if_pos h]
        apply ih
        have h1 : ((rest.dropWhile notRB).drop 1).length ≤ (rest.dropWhile notRB).length :=
          (List.drop_sublist 1 _).length_le
        have h2 : (rest.dropWhile notRB).length ≤ rest.length :=
          (List.dropWhile_suffix notRB).sublist.length_le
        omega
      · rw [if_neg h]
        rw [hasCitation, ih rest hr, Bool.or_false]
        rcases citeAt_eq_false_cases c rest (Bool.not_eq_true _ ▸ h : citeAt (c :: rest) = false)
          with h1 | h1 | h1
        · simp [citeAt, h1]
        · cases rest with
          | nil => simp [citeAt, stripCitationsF_nil]
          | cons r rs =>
            rw [List.takeWhile_cons] at h1
            by_cases hr2 : notRB r = true
            · simp [hr2] at h1
            · have hr3 : r = ']' := by simpa [notRB] using hr2
              subst hr3
              obtain ⟨t, ht⟩ := stripCitationsF_rb_cons f rs
              rw [ht]
              simp [citeAt, List.takeWhile_cons, hr2]
        · have hall : ∀ x ∈ rest, notRB x = true := List.dropWhile_eq_nil_iff.mp h1
          have hsub : ∀ x ∈ stripCitationsF f rest, notRB x = true :=
            fun x hx => hall x ((stripCitationsF_sublist f rest).subset hx)
          have : (stripCitationsF f rest).dropWhile notRB = [] :=
            List.dropWhile_eq_nil_iff.mpr hsub
          simp [citeAt, this]

theorem hasCitation_stripCitations (l : Str) :
    hasCitation (stripCitations l) = false :=
  hasCitation_stripCitationsF l.length l le_rfl

/-! ### Citations survive neither truncation nor stripping -/

/-- Truncating a list does not change its initial `takeWhile` run, nor the
head of the remainder, as long as the truncation keeps part of the
remainder. -/
theorem takeWhile_dropWhile_of_take {α : Type} (p : α → Bool) :
    ∀ (l : List α) (k : Nat), (l.take k).dropWhile p ≠ [] →
      l.takeWhile p = (l.take k).takeWhile p ∧
        l.dropWhile p = ((l.take k).dropWhile p) ++ l.drop k := by
  intro l
  induction l with
  | nil => intro k h; simp at h
  | cons a rest ih =>
    intro k h
    cases k with
    | zero => simp at h
    | succ j =>
      rw [List.take_succ_cons] at h ⊢
      by_cases hp : p a = true
      · rw [List.dropWhile_cons, if_pos hp] at h
        obtain ⟨h1, h2⟩ := ih j h
        refine ⟨?_, ?_⟩
        · rw [List.takeWhile_cons, List.takeWhile_cons, if_pos hp, if_pos hp, h1]
        · rw [List.dropWhile_cons, List.dropWhile_cons, if_pos hp, if_pos hp,
            List.drop_succ_cons, h2]
      · refine ⟨?_, ?_⟩
        · rw [List.takeWhile_cons, List.takeWhile_cons, if_neg hp, if_neg hp]
        · rw [List.dropWhile_cons, List.dropWhile_cons, if_neg hp, if_neg hp,
            List.drop_succ_cons, List.cons_append, List.take_append_drop]

/-- A citation match starting at the head of a truncated string is also a
match at the head of the full string. -/
theorem citeAt_take (c : Char) (rest : Str) (k : Nat)
    (h : citeAt (c :: rest.take k) = true) : citeAt (c :: rest) = true := by
  simp only [citeAt, Bool.and_eq_true, beq_iff_eq] at h ⊢
  obtain ⟨⟨hc, hrun⟩, htake⟩ := h
  have hne : (rest.take k).dropWhile notRB ≠ [] := by
    intro hnil
    rw [hnil] at htake
    simp at htake
  obtain ⟨h1, h2⟩ := takeWhile_dropWhile_of_take notRB rest k hne
  refine ⟨⟨hc, by rw [h1]; exact hrun⟩, ?_⟩
  rw [h2]
  cases hd : (rest.take k).dropWhile notRB with
  | nil => exact absurd hd hne
  | cons b bs =>
    rw [hd] at htake
    simpa using htake

/-- Truncation cannot create a citation match. -/
theorem hasCitation_take (l : Str) (n : Nat) (h : hasCitation l = false) :
    hasCitation (l.take n) = false := by
  induction l generalizing n with
  | nil => simp [hasCitation]
  | cons c rest ih =>
    cases n with
    | zero => rfl
    | succ j =>
      rw [List.take_succ_cons]
      rw [hasCitation, Bool.or_eq_false_iff] at h
      rw [hasCitation, Bool.or_eq_false_iff]
      refine ⟨?_, ih j h.2⟩
      by_contra hc
      have := citeAt_take c rest j (Bool.not_eq_false _ ▸ hc)
      rw [this] at h
      exact Bool.true_eq_false.mp h.1

/-- Dropping a white-space run from the front cannot create a citation
match. -/
theorem hasCitation_dropWhile (p : Char → Bool) (l : Str)
    (h : hasCitation l = false) : hasCitation (l.dropWhile p) = false := by
  induction l with
  | nil => simpa using h
  | cons c rest ih =>
    rw [List.dropWhile_cons]
    rw [hasCitation, Bool.or_eq_false_iff] at h
    by_cases hp : p c = true
    · rw [if_pos hp]; exact ih h.2
    · rw [if_neg hp, hasCitation, Bool.or_eq_false_iff]; exact h

/-- `dropWhile` is a `drop` by the length of the initial run. -/
theorem dropWhile_eq_drop {α : Type} (p : α → Bool) :
    ∀ l : List α, l.dropWhile p = l.drop (l.takeWhile p).length := by
  intro l
  induction l with
  | nil => rfl
  | cons a rest ih =>
    rw [List.dropWhile_cons, List.takeWhile_cons]
    by_cases hp : p a = true
    · rw [if_pos hp, if_pos hp, List.length_cons, List.drop_succ_cons, ih]
    · rw [if_neg hp, if_neg hp]
      rfl

/-- Stripping surrounding white space cannot create a citation match. -/
theorem hasCitation_pyStrip (l : Str) (h : hasCitation l = false) :
    hasCitation (pyStrip l) = false := by
  unfold pyStrip
  have ht : hasCitation (l.dropWhile isPySpace) = false :=
    hasCitation_dropWhile isPySpace l h
  rw [dropWhile_eq_drop isPySpace (l.dropWhile isPySpace).reverse, List.reverse_drop]
  rw [List.reverse_reverse, List.length_reverse]
  exact hasCitation_take _ _ ht

/-! ### Properties of `pyStrip` -/

/-- A list whose head (if any) fails `p` is untouched by `dropWhile p`. -/
theorem dropWhile_eq_self_of_head {α : Type} (p : α → Bool) (l : List α)
    (h : ∀ a, l.head? = some a → p a = false) : l.dropWhile p = l := by
  cases l with
  | nil => rfl
  | cons c rest => rw [List.dropWhile_cons, if_neg (by simp [h c rfl])]

/-- A nonempty suffix ends where the whole list ends. -/
theorem suffix_getLast? {α : Type} (l₁ l₂ : List α) (hs : l₁ <:+ l₂)
    (h : l₁ ≠ []) : l₁.getLast? = l₂.getLast? := by
  obtain ⟨x, rfl⟩ := hs
  exact (List.getLast?_append_of_ne_nil x h).symm

/-- The head of a stripped string is not white space. -/
theorem pyStrip_head (l : Str) :
    ∀ a, (pyStrip l).head? = some a → isPySpace a = false := by
  intro a ha
  unfold pyStrip at ha
  rw [List.head?_reverse] at ha
  have hw : ((l.dropWhile isPySpace).reverse.dropWhile isPySpace) ≠ [] := by
    intro hnil
    rw [hnil] at ha
    simp at ha
  rw [suffix_getLast? _ _ (List.dropWhile_suffix isPySpace) hw,
    List.getLast?_reverse] at ha
  exact dropWhile_head?_not isPySpace _ a ha

/-- The last character of a stripped string is not white space. -/
theorem pyStrip_getLast (l : Str) :
    ∀ a, (pyStrip l).getLast? = some a → isPySpace a = false := by
  intro a ha
  unfold pyStrip at ha
  rw [List.getLast?_reverse] at ha
  exact dropWhile_head?_not isPySpace _ a ha

/-- A stripped string has no surrounding white space. -/
theorem strippedB_pyStrip (l : Str) : strippedB (pyStrip l) = true := by
  unfold strippedB
  rw [Bool.and_eq_true]
  constructor
  · cases hh : (pyStrip l).head? with
    | none => rfl
    | some a => simp [Option.all_some, pyStrip_head l a hh]
  · cases hg : (pyStrip l).getLast? with
    | none => rfl
    | some a => simp [Option.all_some, pyStrip_getLast l a hg]

/-- Stripping is idempotent. -/
theorem pyStrip_idem (l : Str) : pyStrip (pyStrip l) = pyStrip l := by
  have h1 : (pyStrip l).dropWhile isPySpace = pyStrip l :=
    dropWhile_eq_self_of_head isPySpace (pyStrip l) (pyStrip_head l)
  have h2 : (pyStrip l).reverse.dropWhile isPySpace = (pyStrip l).reverse := by
    apply dropWhile_eq_self_of_head
    intro a ha
    rw [List.head?_reverse] at ha
    exact pyStrip_getLast l a ha
  show ((((pyStrip l).dropWhile isPySpace).reverse.dropWhile isPySpace)).reverse = pyStrip l
  rw [h1, h2, List.reverse_reverse]

/-- Stripping only deletes characters. -/
theorem pyStrip_sublist (l : Str) : List.Sublist (pyStrip l) l := by
  have h1 : List.Sublist ((l.dropWhile isPySpace).reverse.dropWhile isPySpace)
      (l.dropWhile isPySpace).reverse :=
    (List.dropWhile_suffix isPySpace).sublist
  have h2 := h1.reverse
  rw [List.reverse_reverse] at h2
  exact h2.trans (List.dropWhile_suffix isPySpace).sublist

/-! ### `clean_text`: character sets, citations, stripping, idempotence -/

/-- Every character of a cleaned string already survived the quote/hyphen
filter. -/
theorem clean_text_subset_removeQuotes (s : Str) :
    ∀ c ∈ clean_text s, c ∈ removeQuotes s := by
  intro c hc
  have h : List.Sublist (clean_text s) (removeQuotes s) :=
    (pyStrip_sublist _).trans (stripCitations_sublist _)
  exact h.subset hc

/-- The quote/hyphen filter is a no-op on a cleaned string. -/
theorem removeQuotes_clean_text (s : Str) :
    removeQuotes (clean_text s) = clean_text s := by
  unfold removeQuotes
  refine List.filter_eq_self.mpr ?_
  intro a ha
  have hm := clean_text_subset_removeQuotes s a ha
  unfold removeQuotes at hm
  exact (List.mem_filter.mp hm).2

/-- A cleaned string has no citation match left. -/
theorem hasCitation_clean_text (s : Str) :
    hasCitation (clean_text s) = false :=
  hasCitation_pyStrip _ (hasCitation_stripCitations _)

/-- The citation scrubber is a no-op on a cleaned string. -/
theorem stripCitations_clean_text (s : Str) :
    stripCitations (clean_text s) = clean_text s :=
  stripCitationsF_of_no_citation _ _ (hasCitation_clean_text s)

/-- Stripping is a no-op on a cleaned string. -/
theorem pyStrip_clean_text (s : Str) :
    pyStrip (clean_text s) = clean_text s :=
  pyStrip_idem _

/-! ### Lemmas about the batching comprehension -/

theorem keyword_batches_nil (B : Nat) : keyword_batches B [] = [] := by
  unfold keyword_batches
  cases B with
  | zero => rfl
  | succ b =>
    rw [List.length_nil, Nat.div_eq_of_lt (by omega)]
    rfl

/-- On a nonempty keyword list the comprehension peels off one batch of
`B` keywords and recurses on the rest. -/
theorem keyword_batches_cons (B : Nat) (hB : 1 ≤ B) (l : List Str) (hl : l ≠ []) :
    keyword_batches B l = l.take B :: keyword_batches B (l.drop B) := by
  have hpos : 0 < l.length := List.length_pos.mpr hl
  have hcount : (l.length + B - 1) / B = ((l.drop B).length + B - 1) / B + 1 := by
    rw [List.length_drop]
    rcases Nat.lt_or_ge l.length (B + 1) with hlt | hge
    · have h1 : l.length - B = 0 := by omega
      rw [h1]
      have h2 : (0 + B - 1) / B = 0 := Nat.div_eq_of_lt (by omega)
      rw [h2]
      have h3 : l.length + B - 1 = (l.length - 1) + B := by omega
      rw [h3, Nat.add_div_right _ (by omega), Nat.div_eq_of_lt (by omega)]
    · have h3 : l.length + B - 1 = ((l.length - B) + B - 1) + B := by omega
      rw [h3, Nat.add_div_right _ (by omega)]
  unfold keyword_batches
  rw [hcount, List.range_succ_eq_map, List.map_cons, Nat.zero_mul, List.drop_zero,
    List.map_map]
  have hfun : ((fun j => (l.drop (j * B)).take B) ∘ Nat.succ) =
      (fun j => ((l.drop B).drop (j * B)).take B) := by
    funext j
    show (l.drop (Nat.succ j * B)).take B = ((l.drop B).drop (j * B)).take B
    rw [List.drop_drop, Nat.succ_mul, Nat.add_comm (j * B) B]
  rw [hfun]

/-- The batches cover the keyword list exactly, in order. -/
theorem keyword_batches_flatten (B : Nat) (hB : 1 ≤ B) (l : List Str) :
    (keyword_batches B l).flatten = l := by
  by_cases hl : l = []
  · subst hl
    rw [keyword_batches_nil]
    rfl
  · rw [keyword_batches_cons B hB l hl, List.flatten_cons,
      keyword_batches_flatten B hB (l.drop B), List.take_append_drop]
termination_by l.length
decreasing_by
  have hpos : 0 < l.length := List.length_pos.mpr hl
  rw [List.length_drop]
  omega

/-- With batch size 1 every keyword is its own batch. -/
theorem keyword_batches_one (l : List Str) :
    keyword_batches 1 l = l.map (fun k => [k]) := by
  induction l with
  | nil => exact keyword_batches_nil 1
  | cons k rest ih =>
    rw [keyword_batches_cons 1 le_rfl _ (by simp), List.map_cons, ← ih]
    rfl

/-! ### Characterisation of the orchestrator -/

/-- Folding over singleton batches is folding over the keywords. -/
theorem foldl_singleton_batches {β : Type}
    (f : β → Str → β) :
    ∀ (kws : List Str) (acc : β),
      (kws.map (fun k => [k])).foldl (fun a batch => batch.foldl f a) acc =
        kws.foldl f acc := by
  intro kws
  induction kws with
  | nil => intro acc; rfl
  | cons k rest ih =>
    intro acc
    rw [List.map_cons, List.foldl_cons, List.foldl_cons]
    exact ih _

/-- The inner loop of `generate_content`, fully characterised: each
keyword contributes its `postStep` to the posts and its `logStep` to the
debug log, in order. -/
theorem foldl_gen_step (complete : Str → Str → Option Str)
    (api_key company_name : Str) (debug_mode : Bool) :
    ∀ (kws : List Str) (acc : List Str × List Str),
      kws.foldl
        (fun acc keyword =>
          match complete api_key (build_prompt company_name keyword) with
          | some response_text =>
            if response_text = [] then acc
            else
              (acc.1 ++ [response_text],
               acc.2 ++ if debug_mode then [dbgMsg keyword response_text] else [])
          | none => acc) acc =
      (acc.1 ++ kws.filterMap (postStep complete api_key company_name),
       acc.2 ++ kws.filterMap (logStep complete api_key company_name debug_mode)) := by
  intro kws
  induction kws with
  | nil => intro acc; simp
  | cons k rest ih =>
    intro acc
    rw [List.foldl_cons, List.filterMap_cons, List.filterMap_cons]
    cases hc : complete api_key (build_prompt company_name k) with
    | none =>
      rw [ih]
      simp [postStep, logStep, hc]
    | some t =>
      by_cases ht : t = []
      · subst ht
        simp only [if_pos rfl]
        rw [ih]
        simp [postStep, logStep, hc]
      · simp only [if_neg ht]
        rw [ih]
        simp only [postStep, logStep, hc, if_neg ht]
        by_cases hd : debug_mode = true
        · simp [hd, List.append_assoc]
        · simp [Bool.not_eq_true _ ▸ hd, List.append_assoc]

/-- `generate_content`, fully characterised. -/
theorem generate_content_eq (complete : Str → Str → Option Str)
    (api_key company_name : Str) (kws : List Str) (debug_mode : Bool) :
    generate_content complete api_key company_name kws debug_mode =
      (kws.filterMap (postStep complete api_key company_name),
       kws.filterMap (logStep complete api_key company_name debug_mode)) := by
  unfold generate_content
  rw [keyword_batches_one, foldl_singleton_batches, foldl_gen_step]
  rfl

/-! ### Characterisation of the parser -/

/-- The parsing loop, fully characterised: each line contributes its
`parse_line` to the table and its `warnStep` to the warnings, in order. -/
theorem parse_foldl (responses : List Str) :
    ∀ acc : List (List (Str × Str)) × List Str,
      responses.foldl
        (fun acc line =>
          if 2 ≤ (lineParts line).length then
            (acc.1 ++ [mkRecord (lineParts line)], acc.2)
          else (acc.1, acc.2 ++ [warnMsg (lineParts line).length line])) acc =
      (acc.1 ++ responses.filterMap parse_line,
       acc.2 ++ responses.filterMap warnStep) := by
  induction responses with
  | nil => intro acc; simp
  | cons line rest ih =>
    intro acc
    rw [List.foldl_cons, List.filterMap_cons, List.filterMap_cons]
    by_cases h : 2 ≤ (lineParts line).length
    · rw [if_pos h, ih]
      simp [parse_line, warnStep, if_pos h, List.append_assoc]
    · rw [if_neg h, ih]
      simp [parse_line, warnStep, if_neg h, List.append_assoc]

/-- `parse_responses`, fully characterised. -/
theorem parse_responses_eq (responses : List Str) :
    parse_responses responses =
      (responses.filterMap parse_line, responses.filterMap warnStep) := by
  unfold parse_responses
  rw [parse_foldl]
  rfl

/-- The row only depends on the first 7 fragments. -/
theorem mkRecord_take_seven (parts : List Str) (h : 7 ≤ parts.length) :
    mkRecord parts = mkRecord (parts.take 7) := by
  have hlen : (parts.take 7).length = 7 := by
    rw [List.length_take]
    omega
  have hget : ∀ i : Nat, i < 7 → (parts.take 7).getD i [] = parts.getD i [] := by
    intro i hi
    rw [List.getD_eq_getElem?_getD, List.getD_eq_getElem?_getD, List.getElem?_take,
      if_pos hi]
  unfold mkRecord
  rw [hlen, hget 0 (by omega), hget 1 (by omega), hget 2 (by omega), hget 3 (by omega),
    hget 4 (by omega), hget 5 (by omega), hget 6 (by omega)]
  have h2 : 2 < parts.length := by omega
  have h3 : 3 < parts.length := by omega
  have h4 : 4 < parts.length := by omega
  have h5 : 5 < parts.length := by omega
  have h6 : 6 < parts.length := by omega
  simp [h2, h3, h4, h5, h6]

/-! ### The claims -/

/-- C7: `clean_text` (the Text Normalizer) is idempotent: cleaning an
already-cleaned string returns it unchanged. -/
theorem claim_C7_clean_text_idempotent (s : Str) :
    clean_text (clean_text s) = clean_text s := by
  calc clean_text (clean_text s)
      = pyStrip (stripCitations (removeQuotes (clean_text s))) := rfl
    _ = pyStrip (stripCitations (clean_text s)) := by rw [removeQuotes_clean_text]
    _ = pyStrip (clean_text s) := by rw [stripCitations_clean_text]
    _ = clean_text s := pyStrip_clean_text s

/-- C2 counterexample: the claim predicts that
`"IBM India"-great place [1]` normalises to `IBM India great place` and
that em/en-dashes are removed.  The code removes the quotes and the
hyphen without reinserting any space, producing `IBM Indiagreat place`,
and it leaves em-dash and en-dash characters in place. -/
theorem claim_C2_counterexample :
    clean_text "\x22IBM India\x22-great place [1]".data = "IBM Indiagreat place".data ∧
    clean_text "\x22IBM India\x22-great place [1]".data ≠ "IBM India great place".data ∧
    clean_text "a—b–c".data = "a—b–c".data := by
  refine ⟨by decide, by decide, by decide⟩

/-- C2 (amended): `clean_text` removes every straight double quote, curly
double quote and hyphen-minus (em/en-dashes are not in the removal set),
removes every bracketed citation marker, and the result carries no
leading or trailing white space. -/
theorem claim_C2_normalizer (s : Str) :
    (∀ c ∈ clean_text s, c ≠ '"' ∧ c ≠ '“' ∧ c ≠ '”' ∧ c ≠ '-') ∧
    hasCitation (clean_text s) = false ∧
    strippedB (clean_text s) = true := by
  refine ⟨?_, hasCitation_clean_text s, strippedB_pyStrip (stripCitations (removeQuotes s))⟩
  intro c hc
  have hm := clean_text_subset_removeQuotes s c hc
  unfold removeQuotes at hm
  have hp := (List.mem_filter.mp hm).2
  have hq : ((¬c = '"' ∧ ¬c = '“') ∧ ¬c = '”') ∧ ¬c = '-' := by simpa using hp
  exact ⟨hq.1.1.1, hq.1.1.2, hq.1.2, hq.2⟩

/-- C2 witness: the amended normaliser property evaluated on the spec's
own example input. -/
theorem claim_C2_witness :
    'I' ∈ clean_text "\x22IBM India\x22-great place [1]".data ∧
    ('I' ≠ '"' ∧ 'I' ≠ '“' ∧ 'I' ≠ '”' ∧ 'I' ≠ '-') ∧
    hasCitation (clean_text "\x22IBM India\x22-great place [1]".data) = false ∧
    strippedB (clean_text "\x22IBM India\x22-great place [1]".data) = true :=
  ⟨by decide,
   (claim_C2_normalizer "\x22IBM India\x22-great place [1]".data).1 'I' (by decide),
   (claim_C2_normalizer "\x22IBM India\x22-great place [1]".data).2.1,
   (claim_C2_normalizer "\x22IBM India\x22-great place [1]".data).2.2⟩

/-- C4: for every keyword sequence and every batch size `B ≥ 1`, the
batching comprehension yields `ceil(L / B)` batches, each of size at most
`B`, whose concatenation is the original keyword sequence. -/
theorem claim_C4_batching (B : Nat) (hB : 1 ≤ B) (l : List Str) :
    (keyword_batches B l).length = (l.length + B - 1) / B ∧
    (∀ b ∈ keyword_batches B l, b.length ≤ B) ∧
    (keyword_batches B l).flatten = l := by
  refine ⟨by simp [keyword_batches], ?_, keyword_batches_flatten B hB l⟩
  intro b hb
  unfold keyword_batches at hb
  obtain ⟨j, hj, rfl⟩ := List.mem_map.mp hb
  rw [List.length_take]
  exact min_le_left _ _

/-- C4 witness: 5 keywords at batch size 2 give 3 batches, sizes ≤ 2,
concatenating back to the input. -/
theorem claim_C4_witness :
    1 ≤ 2 ∧
    ((keyword_batches 2 ["k1".data, "k2".data, "k3".data, "k4".data, "k5".data]).length
        = (["k1".data, "k2".data, "k3".data, "k4".data, "k5".data].length + 2 - 1) / 2 ∧
     (∀ b ∈ keyword_batches 2 ["k1".data, "k2".data, "k3".data, "k4".data, "k5".data],
        b.length ≤ 2) ∧
     (keyword_batches 2 ["k1".data, "k2".data, "k3".data, "k4".data, "k5".data]).flatten
        = ["k1".data, "k2".data, "k3".data, "k4".data, "k5".data]) :=
  ⟨by decide, claim_C4_batching 2 (by decide) _⟩

/-- C3: a line whose delimiter split leaves at least 2 non-empty
fragments parses to the full row — Title and Post Body from the first
two fragments, Comments 1..5 from fragments 2..6 when present and `""`
otherwise, each through `clean_text`; and the two round-trip examples
from the spec. -/
theorem claim_C3_well_formed_line :
    (∀ line : Str, 2 ≤ (lineParts line).length →
      parse_line line = some
        [("Title".data, clean_text ((lineParts line).getD 0 [])),
         ("Post Body".data, clean_text ((lineParts line).getD 1 [])),
         ("Comment 1".data,
          if 2 < (lineParts line).length then clean_text ((lineParts line).getD 2 []) else []),
         ("Comment 2".data,
          if 3 < (lineParts line).length then clean_text ((lineParts line).getD 3 []) else []),
         ("Comment 3".data,
          if 4 < (lineParts line).length then clean_text ((lineParts line).getD 4 []) else []),
         ("Comment 4".data,
          if 5 < (lineParts line).length then clean_text ((lineParts line).getD 5 []) else []),
         ("Comment 5".data,
          if 6 < (lineParts line).length then clean_text ((lineParts line).getD 6 []) else [])]) ∧
    parse_line "T|||B|||C1|||C2|||C3|||C4|||C5".data = some
      [("Title".data, "T".data), ("Post Body".data, "B".data),
       ("Comment 1".data, "C1".data), ("Comment 2".data, "C2".data),
       ("Comment 3".data, "C3".data), ("Comment 4".data, "C4".data),
       ("Comment 5".data, "C5".data)] ∧
    parse_line "T|||B".data = some
      [("Title".data, "T".data), ("Post Body".data, "B".data),
       ("Comment 1".data, []), ("Comment 2".data, []), ("Comment 3".data, []),
       ("Comment 4".data, []), ("Comment 5".data, [])] := by
  refine ⟨?_, by decide, by decide⟩
  intro line h
  unfold parse_line
  rw [if_pos h]
  rfl

/-- C3 witness: a concrete 3-fragment line run through the parse rule. -/
theorem claim_C3_witness :
    2 ≤ (lineParts "X|||Y|||Z".data).length ∧
    parse_line "X|||Y|||Z".data = some
      [("Title".data, "X".data), ("Post Body".data, "Y".data),
       ("Comment 1".data, "Z".data), ("Comment 2".data, []), ("Comment 3".data, []),
       ("Comment 4".data, []), ("Comment 5".data, [])] :=
  ⟨by decide,
   (claim_C3_well_formed_line.1 "X|||Y|||Z".data (by decide)).trans (by decide)⟩

/-- C1 counterexample: a completion that succeeds with the two-line text
`a\nb` contributes exactly one element — the raw text, newline included —
to the output sequence, not one element per non-empty trimmed line. -/
theorem claim_C1_counterexample :
    (generate_content (fun _ _ => some ['a', '\n', 'b']) [] [] [['k']] false).1 =
      [['a', '\n', 'b']] ∧
    (generate_content (fun _ _ => some ['a', '\n', 'b']) [] [] [['k']] false).1 ≠
      [['a'], ['b']] := by
  refine ⟨by decide, by decide⟩

/-- C1 (amended): for every batch whose completion call succeeds with
nonempty text, the orchestrator appends the raw completion text as a
single element to the output sequence (no line splitting, no trimming);
failed or empty completions contribute nothing. -/
theorem claim_C1_append_raw (complete : Str → Str → Option Str)
    (api_key company_name : Str) (kws : List Str) (debug_mode : Bool) :
    (generate_content complete api_key company_name kws debug_mode).1 =
      kws.filterMap (postStep complete api_key company_name) := by
  rw [generate_content_eq]

/-- The completion client used by the C5 witness: fails on the prompt for
keyword `x`, answers `ok` on every other prompt. -/
def c5Client : Str → Str → Option Str :=
  fun _ prompt =>
    if prompt = build_prompt "co".data "x".data then none else some "ok".data

/-- C5: when the completion call for a batch fails (`none`), that batch
contributes zero elements, the run is unchanged from the run without that
batch (no exception, later batches still processed), and a later batch's
successful nonempty completion still appears in the result. -/
theorem claim_C5_failure_skips_batch (complete : Str → Str → Option Str)
    (api_key company_name : Str) (kws1 : List Str) (k : Str) (kws2 : List Str)
    (debug_mode : Bool)
    (hfail : complete api_key (build_prompt company_name k) = none) :
    generate_content complete api_key company_name (kws1 ++ k :: kws2) debug_mode =
      generate_content complete api_key company_name (kws1 ++ kws2) debug_mode ∧
    ∀ k2 t, k2 ∈ kws2 → complete api_key (build_prompt company_name k2) = some t →
      t ≠ [] →
      t ∈ (generate_content complete api_key company_name
            (kws1 ++ k :: kws2) debug_mode).1 := by
  have hp : postStep complete api_key company_name k = none := by
    unfold postStep
    rw [hfail]
  have hl : logStep complete api_key company_name debug_mode k = none := by
    unfold logStep
    rw [hfail]
  constructor
  · rw [generate_content_eq, generate_content_eq]
    simp [List.filterMap_append, List.filterMap_cons, hp, hl]
  · intro k2 t hk2 hc ht
    rw [generate_content_eq]
    show t ∈ (kws1 ++ k :: kws2).filterMap (postStep complete api_key company_name)
    refine List.mem_filterMap.mpr ⟨k2, ?_, ?_⟩
    · simp [hk2]
    · simp [postStep, hc, ht]

set_option maxRecDepth 8000 in
/-- C5 witness: first keyword's call fails, second succeeds; the failed
batch contributes nothing and the later batch's text appears. -/
theorem claim_C5_witness :
    generate_content c5Client [] "co".data ([] ++ "x".data :: ["y".data]) false =
      generate_content c5Client [] "co".data ([] ++ ["y".data]) false ∧
    "ok".data ∈
      (generate_content c5Client [] "co".data ([] ++ "x".data :: ["y".data]) false).1 := by
  have h := claim_C5_failure_skips_batch c5Client [] "co".data [] "x".data
    ["y".data] false (by unfold c5Client; rw [if_pos rfl])
  refine ⟨h.1, h.2 "y".data "ok".data (by simp) ?_ (by decide)⟩
  unfold c5Client
  rw [if_neg (by decide)]

/-- C9: a completion call that succeeds with the empty string is skipped
exactly like a failure — the run (posts and debug log alike) equals the
run without that batch. -/
theorem claim_C9_empty_completion (complete : Str → Str → Option Str)
    (api_key company_name : Str) (kws1 : List Str) (k : Str) (kws2 : List Str)
    (debug_mode : Bool)
    (hempty : complete api_key (build_prompt company_name k) = some []) :
    generate_content complete api_key company_name (kws1 ++ k :: kws2) debug_mode =
      generate_content complete api_key company_name (kws1 ++ kws2) debug_mode := by
  have hp : postStep complete api_key company_name k = none := by
    unfold postStep
    rw [hempty]
    rfl
  have hl : logStep complete api_key company_name debug_mode k = none := by
    unfold logStep
    rw [hempty]
    rfl
  rw [generate_content_eq, generate_content_eq]
  simp [List.filterMap_append, List.filterMap_cons, hp, hl]

/-- C9 witness: with debug enabled and an always-empty completion, the
empty-success batch is dropped exactly like a failed one. -/
theorem claim_C9_witness :
    generate_content (fun _ _ => some []) [] [] (["a".data] ++ "k".data :: ["b".data]) true =
      generate_content (fun _ _ => some []) [] [] (["a".data] ++ ["b".data]) true :=
  claim_C9_empty_completion (fun _ _ => some []) [] [] ["a".data] "k".data
    ["b".data] true rfl

/-- C6: a line with fewer than 2 non-empty fragments contributes no row,
surfaces the warning, and leaves the rows of all other lines unaffected. -/
theorem claim_C6_short_line_discarded (ls1 : List Str) (line : Str) (ls2 : List Str)
    (h : (lineParts line).length < 2) :
    (parse_responses (ls1 ++ line :: ls2)).1 = (parse_responses (ls1 ++ ls2)).1 ∧
    (parse_responses (ls1 ++ line :: ls2)).2 =
      (parse_responses ls1).2 ++
        warnMsg (lineParts line).length line :: (parse_responses ls2).2 := by
  have hp : parse_line line = none := by
    unfold parse_line
    rw [if_neg (by omega)]
  have hw : warnStep line = some (warnMsg (lineParts line).length line) := by
    unfold warnStep
    rw [if_neg (by omega)]
  constructor
  · simp only [parse_responses_eq]
    show (ls1 ++ line :: ls2).filterMap parse_line = (ls1 ++ ls2).filterMap parse_line
    simp [List.filterMap_append, List.filterMap_cons, hp]
  · simp only [parse_responses_eq]
    show (ls1 ++ line :: ls2).filterMap warnStep =
      ls1.filterMap warnStep ++
        warnMsg (lineParts line).length line :: ls2.filterMap warnStep
    simp [List.filterMap_append, List.filterMap_cons, hw]

/-- C6 witness: a delimiter-free line between two well-formed lines is
dropped with the warning while its neighbours parse as usual. -/
theorem claim_C6_witness :
    (lineParts "junk".data).length < 2 ∧
    (parse_responses (["A|||B".data] ++ "junk".data :: ["C|||D|||E".data])).1 =
      (parse_responses (["A|||B".data] ++ ["C|||D|||E".data])).1 ∧
    (parse_responses (["A|||B".data] ++ "junk".data :: ["C|||D|||E".data])).2 =
      (parse_responses ["A|||B".data]).2 ++
        warnMsg (lineParts "junk".data).length "junk".data ::
          (parse_responses ["C|||D|||E".data]).2 := by
  have h := claim_C6_short_line_discarded ["A|||B".data] "junk".data
    ["C|||D|||E".data] (by decide)
  exact ⟨by decide, h.1, h.2⟩

/-- C8: every row of the result table is complete — its key sequence is
exactly Title, Post Body, Comment 1..5; no line ever yields a partial
row. -/
theorem claim_C8_rows_complete (responses : List Str) (r : List (Str × Str))
    (hr : r ∈ (parse_responses responses).1) : r.map Prod.fst = recordKeys := by
  rw [parse_responses_eq] at hr
  obtain ⟨line, hline, hparse⟩ := List.mem_filterMap.mp hr
  unfold parse_line at hparse
  by_cases h : 2 ≤ (lineParts line).length
  · rw [if_pos h] at hparse
    have hrec : mkRecord (lineParts line) = r := Option.some.inj hparse
    rw [← hrec]
    rfl
  · rw [if_neg h] at hparse
    cases hparse

/-- C8 witness: the row parsed from a 2-field line has the full key
sequence. -/
theorem claim_C8_witness :
    [("Title".data, "T".data), ("Post Body".data, "B".data),
     ("Comment 1".data, ([] : Str)), ("Comment 2".data, ([] : Str)),
     ("Comment 3".data, ([] : Str)), ("Comment 4".data, ([] : Str)),
     ("Comment 5".data, ([] : Str))] ∈ (parse_responses ["T|||B".data]).1 ∧
    List.map Prod.fst
      [("Title".data, "T".data), ("Post Body".data, "B".data),
       ("Comment 1".data, ([] : Str)), ("Comment 2".data, ([] : Str)),
       ("Comment 3".data, ([] : Str)), ("Comment 4".data, ([] : Str)),
       ("Comment 5".data, ([] : Str))] = recordKeys :=
  ⟨by decide, claim_C8_rows_complete ["T|||B".data] _ (by decide)⟩

/-- C10: a line with more than 7 non-empty fragments still yields the
full row built from the first 7 fragments; the extra fragments are
silently ignored and no warning is emitted. -/
theorem claim_C10_extra_fragments (line : Str) (h : 7 < (lineParts line).length) :
    parse_line line = some (mkRecord ((lineParts line).take 7)) ∧
    warnStep line = none := by
  constructor
  · unfold parse_line
    rw [if_pos (by omega), mkRecord_take_seven _ (by omega)]
  · unfold warnStep
    rw [if_pos (by omega)]

/-- C10 witness: a 9-fragment line parses to the row of its first 7
fragments (Comment 5 = G; H and I are dropped) with no warning. -/
theorem claim_C10_witness :
    7 < (lineParts "A|||B|||C|||D|||E|||F|||G|||H|||I".data).length ∧
    parse_line "A|||B|||C|||D|||E|||F|||G|||H|||I".data = some
      [("Title".data, "A".data), ("Post Body".data, "B".data),
       ("Comment 1".data, "C".data), ("Comment 2".data, "D".data),
       ("Comment 3".data, "E".data), ("Comment 4".data, "F".data),
       ("Comment 5".data, "G".data)] ∧
    warnStep "A|||B|||C|||D|||E|||F|||G|||H|||I".data = none :=
  ⟨by decide,
   ((claim_C10_extra_fragments "A|||B|||C|||D|||E|||F|||G|||H|||I".data
      (by decide)).1).trans (by decide),
   (claim_C10_extra_fragments "A|||B|||C|||D|||E|||F|||G|||H|||I".data
      (by decide)).2⟩

/-- Sanity check of the splitter: white space around `|||` belongs to the
delimiter, not to the fragments. -/
theorem py_re_split_example :
    py_re_split "T ||| B|||C".data = ["T".data, "B".data, "C".data] := by decide

/-- Sanity check: a leading delimiter yields an empty fragment, which the
non-empty filter then drops. -/
theorem lineParts_example : lineParts "|||B".data = ["B".data] := by decide

/-- Sanity check of the normaliser on the example the spec discusses. -/
theorem clean_text_example :
    clean_text "\x22IBM India\x22-great place [1]".data = "IBM Indiagreat place".data := by
  decide
